import Mathlib

/-!
Shallow embedding of the B-tree verifier (`src/btree/bt_vrfy.c`) and the
statistics walker (`src/btree/bt_stat.c`) of the WiredTiger storage engine,
together with proofs checking the natural-language specification against it.

Machine integers are modelled as `Nat` (with explicit `% 2^32` where a
`uint32_t` truncation matters); fallible C functions returning `int` with an
error message logged through `__wt_errx` are modelled as functions returning
`Option VErr × VStuff` — the error identity of the first logged diagnostic
together with the state of the verifier ( `WT_VSTUFF` ) at the moment of
return, mirroring the in-place mutation of the C code.
-/

namespace WTVrfy

/-- Keys are byte strings (`WT_ITEM` data). -/
abbrev Key := List Nat

/-- `WT_ADDR_INVALID`: the all-ones `uint32_t` sentinel for an invalid
fragment address. -/
def WT_ADDR_INVALID : Nat := 2 ^ 32 - 1

/-- `WT_BTREE_DESC_SECTOR`: the 512-byte descriptor sector at the head of
the file. -/
def WT_BTREE_DESC_SECTOR : Nat := 512

/-- `INT_MAX` for the 32-bit `int` of the bitstring package. -/
def INT_MAX : Nat := 2 ^ 31 - 1

/-! ### The bitstring package (`bitstr_t`)

The frag-map is a bit array, one bit per allocation-size piece of the file
body.  We model it as a `List Bool`; a read beyond the end of the list
returns `false` (a clear bit), and a write beyond the end pads the list
first, so that every operation is total. -/

/-- `bit_test(bits, i)`: test bit `i`. -/
def bit_test (bits : List Bool) (i : Nat) : Bool :=
  bits.getD i false

/-- `bit_set(bits, i)`: set bit `i` (padding with clear bits if needed). -/
def bit_set (bits : List Bool) (i : Nat) : List Bool :=
  (bits ++ List.replicate (i + 1 - bits.length) false).set i true

/-- Loop body of `bit_nset`: set `n` consecutive bits starting at `lo`. -/
def bit_nset_go (bits : List Bool) (lo : Nat) : Nat → List Bool
  | 0 => bits
  | n + 1 => bit_nset_go (bit_set bits lo) (lo + 1) n

/-- `bit_nset(bits, lo, hi)`: set bits `lo..hi` inclusive. -/
def bit_nset (bits : List Bool) (lo hi : Nat) : List Bool :=
  bit_nset_go bits lo (hi + 1 - lo)

/-- `bit_ffc(bits, n)`: find the first clear bit at an index `< n`,
`none` when every such bit is set. -/
def bit_ffc (bits : List Bool) (n : Nat) : Option Nat :=
  (List.range n).find? (fun i => !bit_test bits i)

/-! ### Verifier state and errors -/

/-- The diagnostics the verifier can log through `__wt_errx` before
returning `WT_ERROR`.  Each constructor carries exactly the data the
corresponding `printf`-style message cites. -/
inductive VErr where
  /-- "file fragment at addr %u already verified" -/
  | alreadyVerified (addr : Nat)
  /-- "page at addr %u has a starting record of %llu where the expected
  starting record was %llu" (column-store page-level check). -/
  | recnoMismatch (paddr actual expected : Nat)
  /-- Same message issued for a `WT_COL_REF` child entry, citing the
  child reference's address. -/
  | childRecnoMismatch (caddr actual expected : Nat)
  /-- "the internal key in entry %u on the page at addr %u sorts before
  the last key appearing on page %u" -/
  | intKeySorts (entry paddr maxAddr : Nat)
  /-- "the first key on the page at addr %u sorts equal or less than a key
  appearing on page %u" -/
  | leafKeySorts (paddr maxAddr : Nat)
  /-- `__wt_verify_dsk_chunk` rejected an overflow page image. -/
  | badChunk (addr size : Nat)
  /-- "free-list entry addr %u references non-existent file pages" -/
  | freelistRange (addr : Nat)
  deriving Repr, DecidableEq

/-- `WT_VSTUFF`: the state passed around during verification.  The progress
counter `fcnt` and the dump flag have no logical effect and are omitted. -/
structure VStuff where
  /-- Total frags (`uint32_t frags`). -/
  frags : Nat
  /-- Frag tracking bit list. -/
  fragbits : List Bool
  /-- Total record count (`uint64_t record_total`). -/
  record_total : Nat
  /-- Largest key seen so far (`WT_BUF *max_key`). -/
  max_key : Key
  /-- Page of the largest key (`uint32_t max_addr`). -/
  max_addr : Nat
  deriving Repr, DecidableEq

/-! ### `__verify_addfrag` -/

/-- The scan loop of `__verify_addfrag`: `for (i = 0; i < frags; ++i)
if (bit_test(vs->fragbits, addr + i)) … return (WT_ERROR)`.  True iff some
bit in `[addr, addr + frags)` is already set. -/
def addfrag_hit (bits : List Bool) (addr frags : Nat) : Bool :=
  (List.range frags).any (fun i => bit_test bits (addr + i))

/-- `__verify_addfrag(session, addr, size, vs)`: add a chunk's fragments to
the frag-map, complaining if any of them was already verified.  The whole
range is tested before any bit is set; on the error path the state is
returned exactly as it was on entry. -/
def verify_addfrag (allocsize : Nat) (addr size : Nat) (vs : VStuff) :
    Option VErr × VStuff :=
  let frags := size / allocsize
  if addfrag_hit vs.fragbits addr frags then
    (some (VErr.alreadyVerified addr), vs)
  else if frags > 0 then
    (none, { vs with fragbits := bit_nset vs.fragbits addr (addr + (frags - 1)) })
  else
    (none, vs)

/-! ### Bit-map lemmas -/

theorem bit_test_bit_set (bits : List Bool) (i j : Nat) :
    bit_test (bit_set bits i) j = if j = i then true else bit_test bits j := by
  have hlen : i < (bits ++ List.replicate (i + 1 - bits.length) false).length := by
    simp only [List.length_append, List.length_replicate]; omega
  unfold bit_test bit_set
  rcases eq_or_ne j i with rfl | hne
  · simp [List.getD_eq_getElem?_getD, List.getElem?_set_self hlen]
  · rw [List.getD_eq_getElem?_getD, List.getElem?_set_ne (Ne.symm hne), if_neg hne]
    rcases Nat.lt_or_ge j bits.length with h | h
    · rw [List.getElem?_append_left h, List.getD_eq_getElem?_getD]
    · rw [List.getElem?_append_right h, List.getElem?_replicate,
        List.getD_eq_default _ _ h]
      split <;> simp

theorem bit_test_bit_nset_go (bits : List Bool) (lo n j : Nat) :
    bit_test (bit_nset_go bits lo n) j =
      if lo ≤ j ∧ j < lo + n then true else bit_test bits j := by
  induction n generalizing bits lo with
  | zero => rw [show bit_nset_go bits lo 0 = bits from rfl, if_neg (by omega)]
  | succ n ih =>
    rw [bit_nset_go, ih, bit_test_bit_set]
    rcases eq_or_ne j lo with rfl | hne
    · rw [if_neg (by omega), if_pos rfl, if_pos (by omega)]
    · by_cases h1 : lo + 1 ≤ j ∧ j < lo + 1 + n
      · rw [if_pos h1, if_pos (by omega)]
      · rw [if_neg h1, if_neg hne, if_neg (by omega)]

theorem bit_test_bit_nset (bits : List Bool) (lo hi j : Nat) :
    bit_test (bit_nset bits lo hi) j =
      if lo ≤ j ∧ j ≤ hi then true else bit_test bits j := by
  rw [bit_nset, bit_test_bit_nset_go]
  by_cases h : lo ≤ j ∧ j < lo + (hi + 1 - lo)
  · rw [if_pos h, if_pos (by omega)]
  · rw [if_neg h, if_neg (by omega)]

/-! ### Claims about `__verify_addfrag` -/

/-- **C1.** For every call to `__verify_addfrag(addr, size)` with
`k = size / allocsize` fragments: if any bit in `[addr, addr+k)` of the
frag-map is already set, the call fails with the "already verified"
duplicate-reference error; otherwise it sets exactly the bits
`[addr, addr+k)` and returns success; when `k == 0` it sets nothing and
returns success. -/
theorem verify_addfrag_ranges (allocsize addr size : Nat) (vs : VStuff) :
    ((∃ i < size / allocsize, bit_test vs.fragbits (addr + i) = true) →
      verify_addfrag allocsize addr size vs =
        (some (VErr.alreadyVerified addr), vs)) ∧
    ((∀ i < size / allocsize, bit_test vs.fragbits (addr + i) = false) →
      (verify_addfrag allocsize addr size vs).1 = none ∧
      ∀ j, bit_test (verify_addfrag allocsize addr size vs).2.fragbits j =
        (bit_test vs.fragbits j ||
          decide (addr ≤ j ∧ j < addr + size / allocsize))) ∧
    (size / allocsize = 0 →
      verify_addfrag allocsize addr size vs = (none, vs)) := by
  refine ⟨fun hhit => ?_, fun hclear => ?_, fun hzero => ?_⟩
  · have h : addfrag_hit vs.fragbits addr (size / allocsize) = true := by
      obtain ⟨i, hi, hbit⟩ := hhit
      simp only [addfrag_hit, List.any_eq_true, List.mem_range]
      exact ⟨i, hi, hbit⟩
    simp [verify_addfrag, h]
  · have h : addfrag_hit vs.fragbits addr (size / allocsize) = false := by
      simp only [addfrag_hit, List.any_eq_false, List.mem_range]
      intro i hi
      simp [hclear i hi]
    constructor
    · simp only [verify_addfrag, h, Bool.false_eq_true, if_false]
      split <;> rfl
    · intro j
      simp only [verify_addfrag, h, Bool.false_eq_true, if_false]
      by_cases hk : size / allocsize > 0
      · rw [if_pos hk]
        simp only [bit_test_bit_nset]
        by_cases hin : addr ≤ j ∧ j < addr + size / allocsize
        · rw [if_pos (by omega), decide_eq_true hin, Bool.or_true]
        · rw [if_neg (by omega), decide_eq_false hin, Bool.or_false]
      · rw [if_neg hk]
        have : size / allocsize = 0 := Nat.eq_zero_of_not_pos hk
        simp [this]
  · simp [verify_addfrag, hzero, addfrag_hit]

/-- Witness for C1: a frag-map with bit 0 set; charging fragments 1–2
(addr 1, size 1024, allocsize 512) succeeds and sets bit 2; recharging
fragment 0 fails with the duplicate-reference error; a zero-fragment call
(size 100 < allocsize) is a no-op. -/
theorem verify_addfrag_ranges_witness :
    (verify_addfrag 512 1 1024 ⟨3, [true], 0, [], 0⟩).1 = none ∧
    bit_test (verify_addfrag 512 1 1024 ⟨3, [true], 0, [], 0⟩).2.fragbits 2 =
      true ∧
    verify_addfrag 512 0 512 ⟨3, [true], 0, [], 0⟩ =
      (some (VErr.alreadyVerified 0), ⟨3, [true], 0, [], 0⟩) ∧
    verify_addfrag 512 5 100 ⟨3, [true], 0, [], 0⟩ =
      (none, ⟨3, [true], 0, [], 0⟩) := by
  have h2 := (verify_addfrag_ranges 512 1 1024 ⟨3, [true], 0, [], 0⟩).2.1
    (by decide)
  refine ⟨h2.1, ?_, ?_, ?_⟩
  · rw [h2.2 2]; decide
  · exact (verify_addfrag_ranges 512 0 512 ⟨3, [true], 0, [], 0⟩).1
      ⟨0, by decide, by decide⟩
  · exact (verify_addfrag_ranges 512 5 100 ⟨3, [true], 0, [], 0⟩).2.2
      (by decide)

/-- **C10.** When `__verify_addfrag` returns the duplicate-reference error,
the frag-map (indeed the whole verifier state) is exactly as it was before
the call: every bit of the requested range is tested before any bit is set,
so a failing call charges no fragment. -/
theorem verify_addfrag_error_atomic (allocsize addr size : Nat) (vs : VStuff)
    (e : VErr) (h : (verify_addfrag allocsize addr size vs).1 = some e) :
    (verify_addfrag allocsize addr size vs).2 = vs := by
  unfold verify_addfrag at *
  by_cases hhit : addfrag_hit vs.fragbits addr (size / allocsize)
  · simp [hhit]
  · exfalso
    simp only [hhit, Bool.false_eq_true, if_false] at h
    by_cases hk : size / allocsize > 0 <;> simp [hk] at h

/-- Witness for C10: a duplicate charge of fragment 0 leaves the state
untouched. -/
theorem verify_addfrag_error_atomic_witness :
    (verify_addfrag 512 0 1024 ⟨3, [false, true], 0, [], 0⟩).2 =
      ⟨3, [false, true], 0, [], 0⟩ :=
  verify_addfrag_error_atomic 512 0 1024 ⟨3, [false, true], 0, [], 0⟩
    (VErr.alreadyVerified 0) (by decide)

/-! ### `__verify_checkfrag` — the coverage audit -/

/-- The two diagnostic message forms of `__verify_checkfrag`. -/
inductive FragDiag where
  /-- "file fragment %d was never verified" -/
  | single (n : Nat)
  /-- "file fragments %d-%d were never verified" -/
  | range (lo hi : Nat)
  deriving Repr, DecidableEq

/-- The diagnostic `__verify_checkfrag` emits for the run `ffc_start ..
ffc_end`: the single-fragment form when the run has length 1, the range
form otherwise. -/
def mkDiag (s e : Nat) : FragDiag :=
  if s = e then FragDiag.single s else FragDiag.range s e

/-- The unset fragment indices below `n`, in increasing order. -/
def clearFrags (bits : List Bool) (n : Nat) : List Nat :=
  (List.range n).filter (fun i => !bit_test bits i)

/-- Number of unset fragment indices below `n` (termination measure for
the audit loop, which sets each zero bit as it visits it). -/
def clearCount (bits : List Bool) (n : Nat) : Nat :=
  (clearFrags bits n).length

theorem find?_eq_head_filter {α : Type} (p : α → Bool) (l : List α) :
    l.find? p = (l.filter p).head? := by
  induction l with
  | nil => rfl
  | cons a t ih =>
    by_cases h : p a
    · rw [List.find?_cons_of_pos _ h, List.filter_cons_of_pos h, List.head?_cons]
    · rw [List.find?_cons_of_neg _ h,
        List.filter_cons_of_neg (by simpa using h), ih]

theorem bit_ffc_eq_head (bits : List Bool) (n : Nat) :
    bit_ffc bits n = (clearFrags bits n).head? :=
  find?_eq_head_filter _ _

theorem filter_erase_first {ffc : Nat} {p p' : Nat → Bool}
    (hff : ∀ x, p' x = if x = ffc then false else p x) :
    ∀ l : List Nat, l.Nodup → ∀ rest, l.filter p = ffc :: rest →
      l.filter p' = rest := by
  intro l
  induction l with
  | nil => intro _ rest h; simp at h
  | cons a t ih =>
    intro hnd rest h
    rw [List.nodup_cons] at hnd
    by_cases ha : p a
    · rw [List.filter_cons_of_pos ha] at h
      obtain ⟨rfl, rfl⟩ : a = ffc ∧ t.filter p = rest := by
        constructor <;> [exact (List.cons.injEq _ _ _ _ ▸ h).1;
          exact (List.cons.injEq _ _ _ _ ▸ h).2]
      rw [List.filter_cons_of_neg (by rw [hff]; simp)]
      apply List.filter_congr
      intro x hx
      rw [hff, if_neg]
      intro hxa
      exact hnd.1 (hxa ▸ hx)
    · rw [List.filter_cons_of_neg (by simpa using ha)] at h
      have hane : a ≠ ffc := by
        intro hae
        have : ffc ∈ t := by
          have : ffc ∈ t.filter p := h ▸ List.mem_cons_self _ _
          exact List.mem_of_mem_filter this
        exact hnd.1 (hae ▸ this)
      rw [List.filter_cons_of_neg (by rw [hff, if_neg hane]; simpa using ha)]
      exact ih hnd.2 rest h

/-- Setting the first clear bit removes exactly the head of the clear-bit
list. -/
theorem clearFrags_bit_set (bits : List Bool) (n ffc : Nat) (rest : List Nat)
    (h : clearFrags bits n = ffc :: rest) :
    clearFrags (bit_set bits ffc) n = rest := by
  apply filter_erase_first (p := fun i => !bit_test bits i)
    (fun x => ?_) (List.range n) (List.nodup_range n) rest h
  rw [bit_test_bit_set]
  by_cases hx : x = ffc <;> simp [hx]

theorem bit_ffc_cons (bits : List Bool) (n ffc : Nat)
    (h : bit_ffc bits n = some ffc) :
    ∃ rest, clearFrags bits n = ffc :: rest := by
  rw [bit_ffc_eq_head] at h
  cases hc : clearFrags bits n with
  | nil => rw [hc] at h; simp at h
  | cons a t =>
    rw [hc] at h
    simp only [List.head?_cons, Option.some.injEq] at h
    exact ⟨t, by rw [h]⟩

theorem clearCount_bit_set_lt (bits : List Bool) (n ffc : Nat)
    (h : bit_ffc bits n = some ffc) :
    clearCount (bit_set bits ffc) n < clearCount bits n := by
  obtain ⟨rest, hrest⟩ := bit_ffc_cons bits n ffc h
  unfold clearCount
  rw [clearFrags_bit_set bits n ffc rest hrest, hrest]
  simp

/-- The audit loop of `__verify_checkfrag`: repeatedly `bit_ffc` for the
first clear bit, set it, and merge it into the current run `(ffc_start,
ffc_end)` (`none` encodes `ffc_start == -1`); flush the run as one
diagnostic when a gap or the end of the map is reached.  The returned
`Bool` is whether `ret` was set to `WT_ERROR`. -/
def checkfrag_loop (bits : List Bool) (frags : Nat)
    (run : Option (Nat × Nat)) : List FragDiag × Bool :=
  match hffc : bit_ffc bits frags with
  | some ffc =>
    match run with
    | none => checkfrag_loop (bit_set bits ffc) frags (some (ffc, ffc))
    | some (s, e) =>
      if ffc = e + 1 then
        checkfrag_loop (bit_set bits ffc) frags (some (s, ffc))
      else
        let r := checkfrag_loop (bit_set bits ffc) frags (some (ffc, ffc))
        (mkDiag s e :: r.1, true)
  | none =>
    match run with
    | none => ([], false)
    | some (s, e) => ([mkDiag s e], true)
termination_by clearCount bits frags
decreasing_by
  all_goals exact clearCount_bit_set_lt bits frags ffc hffc

/-- `__verify_checkfrag(session, vs)`: verify that every fragment of the
file was checked, reporting maximal runs of unverified fragments. -/
def verify_checkfrag (vs : VStuff) : List FragDiag × Bool :=
  checkfrag_loop vs.fragbits vs.frags none

/-- Maximal runs of consecutive naturals in an increasing list, given an
open run `s..e` (specification-side yardstick for the audit). -/
def maximalRunsGo (s e : Nat) : List Nat → List (Nat × Nat)
  | [] => [(s, e)]
  | p :: rest =>
    if p = e + 1 then maximalRunsGo s p rest
    else (s, e) :: maximalRunsGo p p rest

/-- Maximal runs of consecutive naturals in an increasing list. -/
def maximalRuns : List Nat → List (Nat × Nat)
  | [] => []
  | p :: rest => maximalRunsGo p p rest

theorem checkfrag_loop_some (frags : Nat) (l : List Nat) :
    ∀ bits s e, clearFrags bits frags = l →
      checkfrag_loop bits frags (some (s, e)) =
        ((maximalRunsGo s e l).map (fun r => mkDiag r.1 r.2), true) := by
  induction l with
  | nil =>
    intro bits s e hl
    have hffc : bit_ffc bits frags = none := by
      rw [bit_ffc_eq_head, hl]; rfl
    rw [checkfrag_loop]
    split
    · next ffc heq => rw [hffc] at heq; exact absurd heq (by simp)
    · rfl
  | cons p rest ih =>
    intro bits s e hl
    have hffc : bit_ffc bits frags = some p := by
      rw [bit_ffc_eq_head, hl]; rfl
    have hrest : clearFrags (bit_set bits p) frags = rest :=
      clearFrags_bit_set bits frags p rest hl
    rw [checkfrag_loop]
    split
    · next ffc heq =>
      rw [hffc] at heq
      injection heq with hv
      subst hv
      by_cases hadj : p = e + 1
      · simp only [hadj, if_pos rfl]
        rw [ih (bit_set bits (e + 1)) s (e + 1) (hadj ▸ hrest)]
        simp [maximalRunsGo, hadj]
      · simp only [if_neg hadj]
        rw [ih (bit_set bits p) p p hrest]
        simp [maximalRunsGo, hadj]
    · next heq => rw [hffc] at heq; exact absurd heq (by simp)

/-- `__verify_checkfrag` in closed form: the diagnostics are the maximal
runs of still-clear fragments, the return code is an error exactly when
any fragment is still clear. -/
theorem verify_checkfrag_eq (vs : VStuff) :
    verify_checkfrag vs =
      ((maximalRuns (clearFrags vs.fragbits vs.frags)).map
        (fun r => mkDiag r.1 r.2),
       decide (clearFrags vs.fragbits vs.frags ≠ [])) := by
  unfold verify_checkfrag
  cases hc : clearFrags vs.fragbits vs.frags with
  | nil =>
    have hffc : bit_ffc vs.fragbits vs.frags = none := by
      rw [bit_ffc_eq_head, hc]; rfl
    rw [checkfrag_loop]
    split
    · next ffc heq => rw [hffc] at heq; exact absurd heq (by simp)
    · simp [maximalRuns]
  | cons p rest =>
    have hffc : bit_ffc vs.fragbits vs.frags = some p := by
      rw [bit_ffc_eq_head, hc]; rfl
    have hrest : clearFrags (bit_set vs.fragbits p) vs.frags = rest :=
      clearFrags_bit_set vs.fragbits vs.frags p rest hc
    rw [checkfrag_loop]
    split
    · next ffc heq =>
      rw [hffc] at heq
      injection heq with hv
      subst hv
      rw [checkfrag_loop_some vs.frags rest (bit_set vs.fragbits p) p p hrest]
      simp [maximalRuns]
    · next heq => rw [hffc] at heq; exact absurd heq (by simp)

/-- **C5.** After the walk and free-list pass, the coverage audit returns
an error if and only if at least one frag-map bit is unset, and it emits
exactly one diagnostic per maximal run of consecutive unset bits: the
single-fragment form for a run of length 1 and the range form naming the
first and last fragment for longer runs. -/
theorem verify_checkfrag_spec (vs : VStuff) :
    ((verify_checkfrag vs).2 = true ↔
      ∃ i < vs.frags, bit_test vs.fragbits i = false) ∧
    (verify_checkfrag vs).1 =
      (maximalRuns (clearFrags vs.fragbits vs.frags)).map
        (fun r => mkDiag r.1 r.2) := by
  rw [verify_checkfrag_eq vs]
  constructor
  · simp only [decide_eq_true_eq]
    constructor
    · intro hne
      cases hc : clearFrags vs.fragbits vs.frags with
      | nil => exact absurd hc hne
      | cons p rest =>
        have hp : p ∈ clearFrags vs.fragbits vs.frags := by
          rw [hc]; exact List.mem_cons_self _ _
        unfold clearFrags at hp
        rw [List.mem_filter, List.mem_range] at hp
        exact ⟨p, hp.1, by simpa using hp.2⟩
    · intro ⟨i, hi, hbit⟩ hc
      have : i ∈ clearFrags vs.fragbits vs.frags := by
        unfold clearFrags
        rw [List.mem_filter, List.mem_range]
        exact ⟨hi, by simp [hbit]⟩
      rw [hc] at this
      exact absurd this (List.not_mem_nil i)
  · rfl

/-! ### The btree handle and external collaborators -/

/-- A free-list entry (`WT_FREE_ENTRY`): fragment address and byte size. -/
structure FreeEntry where
  addr : Nat
  size : Nat
  deriving Repr, DecidableEq

/-- Cell kinds relevant to the verifier: overflow key/value cells versus
everything else. -/
inductive CellType where
  | keyOvfl
  | valueOvfl
  | other
  deriving Repr, DecidableEq

/-- `WT_CELL_UNPACK`: the decoded form of an on-disk cell — its kind, its
run length `rle`, and its overflow `(addr, size)` when applicable. -/
structure CellU where
  ctype : CellType
  rle : Nat
  offAddr : Nat
  offSize : Nat
  deriving Repr, DecidableEq

/-- The `WT_BTREE` handle as the verifier sees it.  `btree_compare` is the
tree's configured key comparator; `dskOk` abstracts the external disk-image
validator.  Modelled from the spec: `__wt_verify_dsk_chunk` ("validate the
on-disk chunk header and declared data length via the shared disk-image
validator") is declared outside this repository, so it is abstracted as the
predicate `dskOk` on the overflow chunk's `(addr, size)`. -/
structure Btree where
  allocsize : Nat
  /-- `btree->fh->file_size`. -/
  file_size : Nat
  /-- `btree->btree_compare`: negative / zero / positive total order. -/
  btree_compare : Key → Key → Int
  /-- Whether `__wt_verify_dsk_chunk` accepts the overflow page image read
  from `(addr, size)`. -/
  dskOk : Nat → Nat → Bool
  /-- `btree->freeqa`, in queue order. -/
  freelist : List FreeEntry

/-- `WT_ADDR_TO_OFF(btree, addr)`.  Modelled from the spec: the macro is
declared outside this repository; the spec states "an address `a` refers to
byte `DESC_SECTOR + a·allocsize`". -/
def WT_ADDR_TO_OFF (bt : Btree) (addr : Nat) : Nat :=
  WT_BTREE_DESC_SECTOR + addr * bt.allocsize

/-! ### `__verify_freelist` -/

/-- `__verify_freelist(session, vs)`: walk `btree->freeqa`; an entry
reaching past the end of the file returns `WT_ERROR` immediately; otherwise
the entry's fragments are charged through `__verify_addfrag` under
`WT_TRET`, which remembers the first non-zero return but keeps iterating. -/
def verify_freelist (bt : Btree) : List FreeEntry → VStuff → Option VErr × VStuff
  | [], vs => (none, vs)
  | fe :: rest, vs =>
    if WT_ADDR_TO_OFF bt fe.addr + fe.size > bt.file_size then
      (some (VErr.freelistRange fe.addr), vs)
    else
      match verify_addfrag bt.allocsize fe.addr fe.size vs with
      | (none, vs') => verify_freelist bt rest vs'
      | (some e, vs') =>
        let r := verify_freelist bt rest vs'
        (some e, r.2)

/-- The charging discipline the specification describes for the free list:
charge every entry through `__verify_addfrag`, keep iterating past a
duplicate-reference error, and return the first such error. -/
def freelist_chargeAll (bt : Btree) : List FreeEntry → VStuff → Option VErr × VStuff
  | [], vs => (none, vs)
  | fe :: rest, vs =>
    match verify_addfrag bt.allocsize fe.addr fe.size vs with
    | (none, vs') => freelist_chargeAll bt rest vs'
    | (some e, vs') =>
      let r := freelist_chargeAll bt rest vs'
      (some e, r.2)

/-- **C7.** The free-list reconciler iterates every free-list entry
`(addr, size)`; it rejects with an error any entry whose
`addr·allocsize + size` exceeds `body_size`; for in-bounds entries it
charges the fragments through addfrag, and when addfrag reports a duplicate
reference it continues to the remaining entries while the first such error
becomes the returned result. -/
theorem verify_freelist_spec (bt : Btree) (fl : List FreeEntry) (vs : VStuff)
    (hdesc : WT_BTREE_DESC_SECTOR ≤ bt.file_size) :
    ((∀ fe ∈ fl, fe.addr * bt.allocsize + fe.size ≤
        bt.file_size - WT_BTREE_DESC_SECTOR) →
      verify_freelist bt fl vs = freelist_chargeAll bt fl vs) ∧
    (∀ pre fe post, fl = pre ++ fe :: post →
      (∀ g ∈ pre, g.addr * bt.allocsize + g.size ≤
        bt.file_size - WT_BTREE_DESC_SECTOR) →
      fe.addr * bt.allocsize + fe.size >
        bt.file_size - WT_BTREE_DESC_SECTOR →
      ∃ e, (verify_freelist bt fl vs).1 = some e) := by
  constructor
  · intro hin
    induction fl generalizing vs with
    | nil => rfl
    | cons fe rest ih =>
      have hfe := hin fe (List.mem_cons_self _ _)
      have hrest : ∀ g ∈ rest, g.addr * bt.allocsize + g.size ≤
          bt.file_size - WT_BTREE_DESC_SECTOR :=
        fun g hg => hin g (List.mem_cons_of_mem _ hg)
      rw [verify_freelist, freelist_chargeAll,
        if_neg (by unfold WT_ADDR_TO_OFF; omega)]
      cases hres : verify_addfrag bt.allocsize fe.addr fe.size vs with
      | mk err vs' =>
        cases err with
        | none => exact ih vs' hrest
        | some e => dsimp only; rw [ih vs' hrest]
  · intro pre fe post hfl hpre hoob
    subst hfl
    induction pre generalizing vs with
    | nil =>
      rw [List.nil_append, verify_freelist,
        if_pos (by unfold WT_ADDR_TO_OFF; omega)]
      exact ⟨VErr.freelistRange fe.addr, rfl⟩
    | cons g pre' ih =>
      have hg := hpre g (List.mem_cons_self _ _)
      have hpre' : ∀ g' ∈ pre', g'.addr * bt.allocsize + g'.size ≤
          bt.file_size - WT_BTREE_DESC_SECTOR :=
        fun g' hg' => hpre g' (List.mem_cons_of_mem _ hg')
      rw [List.cons_append, verify_freelist,
        if_neg (by unfold WT_ADDR_TO_OFF; omega)]
      cases hres : verify_addfrag bt.allocsize g.addr g.size vs with
      | mk err vs' =>
        cases err with
        | none => exact ih vs' hpre'
        | some e => exact ⟨e, rfl⟩

/-- A trivial comparator and disk validator for concrete test instances. -/
def btreeW : Btree :=
  { allocsize := 512
    file_size := 2048
    btree_compare := fun _ _ => 0
    dskOk := fun _ _ => true
    freelist := [] }

/-- Witness for C7: with a 2048-byte file (3 body fragments), the entries
`(0, 512)` and `(1, 512)` are in bounds and are charged exactly as the
specification's discipline says; the entry `(3, 1024)` reaches past the
end of the file and is rejected. -/
theorem verify_freelist_spec_witness :
    verify_freelist btreeW [⟨0, 512⟩, ⟨1, 512⟩] ⟨3, [], 0, [], 0⟩ =
      freelist_chargeAll btreeW [⟨0, 512⟩, ⟨1, 512⟩] ⟨3, [], 0, [], 0⟩ ∧
    ∃ e, (verify_freelist btreeW [⟨0, 512⟩, ⟨3, 1024⟩] ⟨3, [], 0, [], 0⟩).1 =
      some e :=
  ⟨(verify_freelist_spec btreeW [⟨0, 512⟩, ⟨1, 512⟩] ⟨3, [], 0, [], 0⟩
      (by decide)).1 (by decide),
   (verify_freelist_spec btreeW [⟨0, 512⟩, ⟨3, 1024⟩] ⟨3, [], 0, [], 0⟩
      (by decide)).2 [⟨0, 512⟩] ⟨3, 1024⟩ [] rfl (by decide) (by decide)⟩

/-! ### `__stat_page_col_var` (bt_stat.c) -/

/-- One slot of a `WT_PAGE_COL_VAR` page as the statistics walker sees it:
the on-disk cell (`NULL` meaning a deleted run) and the tombstone flags
(`WT_UPDATE_DELETED_ISSET(ins->upd)`) of the slot's insert list in list
order. -/
structure ColVarSlot where
  cell : Option CellU
  inserts : List Bool
  deriving Repr, DecidableEq

/-- The two statistics `__stat_page_col_var` updates. -/
structure ColStats where
  /-- `file_item_total_data`. -/
  totalData : Int
  /-- `file_item_col_deleted`. -/
  colDeleted : Int
  deriving Repr, DecidableEq

/-- The insert-list reconciliation loop of `__stat_page_col_var` for one
slot: for each insert, a tombstone over an originally-live slot moves one
item from data to deleted; a non-tombstone over an originally-deleted slot
moves one the other way; otherwise `continue`. -/
def stat_col_var_inserts (origDeleted : Bool) (inserts : List Bool)
    (st : ColStats) : ColStats :=
  inserts.foldl
    (fun st tomb =>
      if tomb then
        if origDeleted then st
        else { st with colDeleted := st.colDeleted + 1,
                       totalData := st.totalData - 1 }
      else
        if !origDeleted then st
        else { st with colDeleted := st.colDeleted - 1,
                       totalData := st.totalData + 1 })
    st

/-- `__stat_page_col_var(session, page)`: walk the page's slots
(`WT_COL_FOREACH`), counting deleted runs and `rle` data items, then walk
each slot's insert list correcting the counts. -/
def stat_page_col_var (slots : List ColVarSlot) (st : ColStats) : ColStats :=
  slots.foldl
    (fun st slot =>
      match slot.cell with
      | none =>
        stat_col_var_inserts true slot.inserts
          { st with colDeleted := st.colDeleted + 1 }
      | some u =>
        stat_col_var_inserts false slot.inserts
          { st with totalData := st.totalData + (u.rle : Int) })
    st

/-- The per-slot total-data contribution the specification describes. -/
def slotDataDelta (s : ColVarSlot) : Int :=
  (match s.cell with | none => 0 | some u => (u.rle : Int)) +
    (s.inserts.map (fun tomb =>
      match s.cell with
      | none => if tomb then 0 else 1
      | some _ => if tomb then -1 else 0)).sum

/-- The per-slot deletion-count contribution the specification describes. -/
def slotDeletedDelta (s : ColVarSlot) : Int :=
  (match s.cell with | none => 1 | some _ => 0) +
    (s.inserts.map (fun tomb =>
      match s.cell with
      | none => if tomb then 0 else -1
      | some _ => if tomb then 1 else 0)).sum

theorem stat_col_var_inserts_total (origDeleted : Bool) (inserts : List Bool)
    (st : ColStats) :
    stat_col_var_inserts origDeleted inserts st =
      { totalData := st.totalData + (inserts.map (fun tomb =>
          if origDeleted then (if tomb then 0 else 1)
          else (if tomb then -1 else 0))).sum,
        colDeleted := st.colDeleted + (inserts.map (fun tomb =>
          if origDeleted then (if tomb then 0 else -1)
          else (if tomb then 1 else 0))).sum } := by
  induction inserts generalizing st with
  | nil => simp [stat_col_var_inserts]
  | cons tomb rest ih =>
    rw [stat_col_var_inserts, List.foldl_cons, ← stat_col_var_inserts, ih]
    cases origDeleted <;> cases tomb <;>
      simp [List.map_cons, List.sum_cons] <;> constructor <;> ring

/-- **C9.** For every col-var-leaf page, the statistics walker adds `rle`
to the total-data count per non-null slot and one deletion per null slot,
then reconciles each slot against its insert list: a tombstone insert over
a slot that was originally live decrements total data and increments the
deletion count, and a non-tombstone insert over a slot that was originally
a deleted run increments total data and decrements the deletion count, with
no adjustment otherwise. -/
theorem stat_page_col_var_spec (slots : List ColVarSlot) (st : ColStats) :
    stat_page_col_var slots st =
      { totalData := st.totalData + (slots.map slotDataDelta).sum,
        colDeleted := st.colDeleted + (slots.map slotDeletedDelta).sum } := by
  induction slots generalizing st with
  | nil => simp [stat_page_col_var]
  | cons slot rest ih =>
    rw [stat_page_col_var, List.foldl_cons, ← stat_page_col_var, ih]
    cases hc : slot.cell with
    | none =>
      simp only [stat_col_var_inserts_total, List.map_cons, List.sum_cons,
        slotDataDelta, slotDeletedDelta, hc, eq_self_iff_true, if_true,
        Bool.false_eq_true, if_false, ColStats.mk.injEq]
      constructor <;> ring
    | some u =>
      simp only [stat_col_var_inserts_total, List.map_cons, List.sum_cons,
        slotDataDelta, slotDeletedDelta, hc, eq_self_iff_true, if_true,
        Bool.false_eq_true, if_false, ColStats.mk.injEq]
      constructor <;> ring

/-! ### The in-memory page tree

A quiescent, fully materialized view of the tree: every `WT_REF` /
`WT_COL_REF` / `WT_ROW_REF` carries the child's address, size and the page
`__wt_page_in` would return for it.  On-disk images (`page->dsk`) are kept
as the list of unpacked cells `WT_CELL_FOREACH` would visit (`none` when
the image was discarded).  Row-store leaf pages carry the list of logical
keys `__wt_row_key` materializes for their slots. -/

mutual

inductive Page where
  /-- `WT_PAGE_COL_FIX`: page address, `u.col_leaf.recno`, `entries`. -/
  | colFix (paddr recno entries : Nat)
  /-- `WT_PAGE_COL_VAR`: page address, `u.col_leaf.recno`, the
  `WT_COL_FOREACH` slots (`none` = NULL cell), the disk image. -/
  | colVar (paddr recno : Nat) (cells : List (Option CellU))
      (dsk : Option (List CellU))
  /-- `WT_PAGE_COL_INT`: page address, `u.col_int.recno`, child refs. -/
  | colInt (paddr recno : Nat) (children : ColRefs)
  /-- `WT_PAGE_ROW_LEAF`: page address, the materialized key of each of
  the `entries` slots of `u.row_leaf.d`, the disk image. -/
  | rowLeaf (paddr : Nat) (keys : List Key) (dsk : Option (List CellU))
  /-- `WT_PAGE_ROW_INT`: page address, child refs, the disk image. -/
  | rowInt (paddr : Nat) (children : RowRefs) (dsk : Option (List CellU))
  /-- `WT_PAGE_OVFL`. -/
  | ovfl (paddr : Nat)

/-- The `WT_COL_REF` array of a column-store internal page: each entry
carries its starting record number (`cref->recno`), the child's address
(`WT_COL_REF_ADDR`) and size, and the child page. -/
inductive ColRefs where
  | nil
  | cons (recno caddr csize : Nat) (child : Page) (rest : ColRefs)

/-- The `WT_ROW_REF` array of a row-store internal page: each entry
carries its key (`rref->key`), the child's address and size, and the
child page. -/
inductive RowRefs where
  | nil
  | cons (ikey : Key) (caddr csize : Nat) (child : Page) (rest : RowRefs)

end

/-- `WT_PADDR(page)`. -/
def pagePaddr : Page → Nat
  | Page.colFix a _ _ => a
  | Page.colVar a _ _ _ => a
  | Page.colInt a _ _ => a
  | Page.rowLeaf a _ _ => a
  | Page.rowInt a _ _ => a
  | Page.ovfl a => a

/-- The starting record number the first `switch` of `__verify_tree` reads
(`u.col_int.recno` for `WT_PAGE_COL_INT`, `u.col_leaf.recno` for
`WT_PAGE_COL_FIX` / `WT_PAGE_COL_VAR`); `none` for page types that fall
out of the switch. -/
def pageStartRecno : Page → Option Nat
  | Page.colInt _ r _ => some r
  | Page.colFix _ r _ => some r
  | Page.colVar _ r _ _ => some r
  | _ => none

/-- The `recno_chk` test of `__verify_tree`: a column-store page whose
starting record differs from the parent's expectation is an error. -/
def recno_check (page : Page) (parent_recno : Nat) : Option VErr :=
  match pageStartRecno page with
  | some recno =>
    if parent_recno ≠ recno then
      some (VErr.recnoMismatch (pagePaddr page) recno parent_recno)
    else none
  | none => none

/-- The `WT_COL_FOREACH` loop of the record-count update: `recno = 0;`
then `++recno` per NULL cell and `recno += unpack->rle` otherwise. -/
def col_var_recno_count (cells : List (Option CellU)) : Nat :=
  cells.foldl
    (fun recno c =>
      match c with
      | none => recno + 1
      | some unpack => recno + unpack.rle)
    0

/-- The record-count update (second `switch` of `__verify_tree`):
`WT_PAGE_COL_FIX` adds `entries`, `WT_PAGE_COL_VAR` adds the cell-loop
count, every other page type leaves `record_total` unchanged. -/
def record_update (page : Page) (vs : VStuff) : VStuff :=
  match page with
  | Page.colFix _ _ entries =>
    { vs with record_total := vs.record_total + entries }
  | Page.colVar _ _ cells _ =>
    { vs with record_total := vs.record_total + col_var_recno_count cells }
  | _ => vs

/-- `__verify_row_leaf_key_order(session, page, vs)`: when no maximum key
has been seen yet (`max_addr == WT_ADDR_INVALID`) compare the page's first
key against `max_key` and fail if it sorts strictly earlier; then record
the page's last key and address as the new maximum. -/
def verify_row_leaf_key_order (bt : Btree) (paddr : Nat) (keys : List Key)
    (vs : VStuff) : Option VErr × VStuff :=
  if vs.max_addr = WT_ADDR_INVALID then
    if bt.btree_compare (keys.getD 0 []) vs.max_key < 0 then
      (some (VErr.leafKeySorts paddr vs.max_addr), vs)
    else
      (none, { vs with max_addr := paddr,
                       max_key := keys.getD (keys.length - 1) [] })
  else
    (none, { vs with max_addr := paddr,
                     max_key := keys.getD (keys.length - 1) [] })

/-- `__verify_row_int_key_order(session, page, rref, entry, vs)`: compare
an internal page's key against the largest key seen so far; anything not
strictly larger fails; otherwise it becomes the new maximum. -/
def verify_row_int_key_order (bt : Btree) (paddr : Nat) (ikey : Key)
    (entry : Nat) (vs : VStuff) : Option VErr × VStuff :=
  if bt.btree_compare ikey vs.max_key ≤ 0 then
    (some (VErr.intKeySorts entry paddr vs.max_addr), vs)
  else
    (none, { vs with max_key := ikey, max_addr := paddr })

/-- `__verify_overflow(session, addr, size, vs)`: read the overflow page,
validate the disk image, charge the fragments. -/
def verify_overflow (bt : Btree) (addr size : Nat) (vs : VStuff) :
    Option VErr × VStuff :=
  if bt.dskOk addr size then
    verify_addfrag bt.allocsize addr size vs
  else
    (some (VErr.badChunk addr size), vs)

/-- The `WT_CELL_FOREACH` loop of `__verify_overflow_cell`: check the page
referenced by each `WT_CELL_KEY_OVFL` / `WT_CELL_VALUE_OVFL` cell. -/
def overflow_cells (bt : Btree) : List CellU → VStuff → Option VErr × VStuff
  | [], vs => (none, vs)
  | u :: rest, vs =>
    match u.ctype with
    | CellType.keyOvfl =>
      match verify_overflow bt u.offAddr u.offSize vs with
      | (some e, vsE) => (some e, vsE)
      | (none, vs') => overflow_cells bt rest vs'
    | CellType.valueOvfl =>
      match verify_overflow bt u.offAddr u.offSize vs with
      | (some e, vsE) => (some e, vsE)
      | (none, vs') => overflow_cells bt rest vs'
    | CellType.other => overflow_cells bt rest vs

/-- `__verify_overflow_cell(session, page, vs)`: a page whose disk image
was discarded (a row-store internal page with no overflow items) is fine;
otherwise sweep the disk image's cells. -/
def verify_overflow_cell (bt : Btree) (dsk : Option (List CellU))
    (vs : VStuff) : Option VErr × VStuff :=
  match dsk with
  | none => (none, vs)
  | some cells => overflow_cells bt cells vs

/-- The third `switch` of `__verify_tree`: the row-store leaf key-order
check runs for `WT_PAGE_ROW_LEAF` only. -/
def page_key_order (bt : Btree) (page : Page) (vs : VStuff) :
    Option VErr × VStuff :=
  match page with
  | Page.rowLeaf paddr keys _ => verify_row_leaf_key_order bt paddr keys vs
  | _ => (none, vs)

/-- The fourth `switch` of `__verify_tree`: the overflow-cell sweep runs
for `WT_PAGE_COL_VAR`, `WT_PAGE_ROW_INT` and `WT_PAGE_ROW_LEAF`. -/
def page_ovfl_sweep (bt : Btree) (page : Page) (vs : VStuff) :
    Option VErr × VStuff :=
  match page with
  | Page.colVar _ _ _ dsk => verify_overflow_cell bt dsk vs
  | Page.rowLeaf _ _ dsk => verify_overflow_cell bt dsk vs
  | Page.rowInt _ _ dsk => verify_overflow_cell bt dsk vs
  | _ => (none, vs)

/-- The page-level steps of `__verify_tree`, in source order: charge the
page's fragments, check the column-store starting record number, update
the record count, check row-leaf key order, sweep overflow cells.  The
recursive descent follows in `verify_tree`. -/
def verify_page_steps (bt : Btree) (addr size : Nat) (page : Page)
    (parent_recno : Nat) (vs : VStuff) : Option VErr × VStuff :=
  match verify_addfrag bt.allocsize addr size vs with
  | (some e, vsE) => (some e, vsE)
  | (none, vs1) =>
    match recno_check page parent_recno with
    | some e => (some e, vs1)
    | none =>
      match page_key_order bt page (record_update page vs1) with
      | (some e, vsE) => (some e, vsE)
      | (none, vs3) =>
        match page_ovfl_sweep bt page vs3 with
        | (some e, vsE) => (some e, vsE)
        | (none, vs4) => (none, vs4)

mutual

/-- `__verify_tree(session, ref, parent_recno, vs)`: the page-level steps
followed by the recursive depth-first descent (`addr`/`size` are the
`WT_REF`'s address and size). -/
def verify_tree (bt : Btree) (addr size : Nat) (page : Page)
    (parent_recno : Nat) (vs : VStuff) : Option VErr × VStuff :=
  match verify_page_steps bt addr size page parent_recno vs with
  | (some e, vsE) => (some e, vsE)
  | (none, vs4) =>
    match page with
    | Page.colInt _ _ children => verify_col_children bt children vs4
    | Page.rowInt paddr children _ => verify_row_children bt paddr 0 children vs4
    | _ => (none, vs4)

/-- The `WT_COL_REF_FOREACH` loop of `__verify_tree`: each entry's
starting record number must be one past the records reviewed so far; then
page-in, recurse with `parent_recno = cref->recno`, and continue. -/
def verify_col_children (bt : Btree) (children : ColRefs) (vs : VStuff) :
    Option VErr × VStuff :=
  match children with
  | ColRefs.nil => (none, vs)
  | ColRefs.cons crecno caddr csize child rest =>
    if crecno ≠ vs.record_total + 1 then
      (some (VErr.childRecnoMismatch caddr crecno (vs.record_total + 1)), vs)
    else
      match verify_tree bt caddr csize child crecno vs with
      | (some e, vsE) => (some e, vsE)
      | (none, vs') => verify_col_children bt rest vs'

/-- The `WT_ROW_REF_FOREACH` loop of `__verify_tree`: run the internal
key-order check for every entry but the 0th (the 0th key of any internal
page is magic), then page-in and recurse with `parent_recno = 0`. -/
def verify_row_children (bt : Btree) (paddr entry : Nat)
    (children : RowRefs) (vs : VStuff) : Option VErr × VStuff :=
  match children with
  | RowRefs.nil => (none, vs)
  | RowRefs.cons ikey caddr csize child rest =>
    match (if entry ≠ 0 then verify_row_int_key_order bt paddr ikey entry vs
           else (none, vs)) with
    | (some e, vsE) => (some e, vsE)
    | (none, vs1) =>
      match verify_tree bt caddr csize child 0 vs1 with
      | (some e, vsE) => (some e, vsE)
      | (none, vs2) => verify_row_children bt paddr (entry + 1) rest vs2

end

/-! ### Record counts of a subtree (specification side) -/

/-- The records the page itself contributes to `record_total` in the
record-count update switch: `entries` for a col-fix leaf, the cell-loop
count for a col-var leaf, nothing for any other page kind. -/
def pageOwnRecords : Page → Nat
  | Page.colFix _ _ entries => entries
  | Page.colVar _ _ cells _ => col_var_recno_count cells
  | _ => 0

/-- The specification's per-slot record count for a col-var leaf: 1 for a
null slot (a deleted run), the unpacked cell's `rle` otherwise. -/
def specSlotRecords : Option CellU → Nat
  | none => 1
  | some u => u.rle

mutual

/-- Total logical records of a subtree, per the specification: col-fix
leaves contribute `entries`, col-var leaves the sum of `specSlotRecords`
over their slots, every other page kind contributes nothing of its own
(its children are visited recursively). -/
def treeRecords : Page → Nat
  | Page.colFix _ _ entries => entries
  | Page.colVar _ _ cells _ => (cells.map specSlotRecords).sum
  | Page.colInt _ _ children => colRefsRecords children
  | Page.rowLeaf _ _ _ => 0
  | Page.rowInt _ children _ => rowRefsRecords children
  | Page.ovfl _ => 0

def colRefsRecords : ColRefs → Nat
  | ColRefs.nil => 0
  | ColRefs.cons _ _ _ child rest => treeRecords child + colRefsRecords rest

def rowRefsRecords : RowRefs → Nat
  | RowRefs.nil => 0
  | RowRefs.cons _ _ _ child rest => treeRecords child + rowRefsRecords rest

end

/-- Concatenation of `WT_COL_REF` arrays (to talk about a prefix of the
`WT_COL_REF_FOREACH` loop). -/
def ColRefs.append : ColRefs → ColRefs → ColRefs
  | ColRefs.nil, ys => ys
  | ColRefs.cons r a s c rest, ys => ColRefs.cons r a s c (rest.append ys)

/-- The `WT_COL_FOREACH` counting loop agrees with the specification's
per-slot sum. -/
theorem col_var_recno_count_eq_sum (cells : List (Option CellU)) :
    col_var_recno_count cells = (cells.map specSlotRecords).sum := by
  unfold col_var_recno_count
  suffices h : ∀ acc, cells.foldl
      (fun recno c =>
        match c with
        | none => recno + 1
        | some unpack => recno + unpack.rle) acc =
      acc + (cells.map specSlotRecords).sum by
    simpa using h 0
  induction cells with
  | nil => simp
  | cons c rest ih =>
    intro acc
    cases c <;> simp [ih, specSlotRecords] <;> omega

/-! ### `record_total` preservation lemmas -/

theorem verify_addfrag_rt (allocsize addr size : Nat) (vs : VStuff) :
    ((verify_addfrag allocsize addr size vs).2).record_total =
      vs.record_total := by
  unfold verify_addfrag
  dsimp only
  split
  · rfl
  · split <;> rfl

theorem verify_overflow_rt (bt : Btree) (addr size : Nat) (vs : VStuff) :
    ((verify_overflow bt addr size vs).2).record_total = vs.record_total := by
  unfold verify_overflow
  split
  · exact verify_addfrag_rt bt.allocsize addr size vs
  · rfl

theorem overflow_cells_rt (bt : Btree) (cells : List CellU) (vs : VStuff) :
    ((overflow_cells bt cells vs).2).record_total = vs.record_total := by
  induction cells generalizing vs with
  | nil => rfl
  | cons u rest ih =>
    simp only [overflow_cells]
    split
    · split
      · next e vsE heq =>
        have hov := verify_overflow_rt bt u.offAddr u.offSize vs
        rw [heq] at hov
        exact hov
      · next vs' heq =>
        have hov := verify_overflow_rt bt u.offAddr u.offSize vs
        rw [heq] at hov
        rw [ih vs']
        exact hov
    · split
      · next e vsE heq =>
        have hov := verify_overflow_rt bt u.offAddr u.offSize vs
        rw [heq] at hov
        exact hov
      · next vs' heq =>
        have hov := verify_overflow_rt bt u.offAddr u.offSize vs
        rw [heq] at hov
        rw [ih vs']
        exact hov
    · exact ih vs

theorem verify_overflow_cell_rt (bt : Btree) (dsk : Option (List CellU))
    (vs : VStuff) :
    ((verify_overflow_cell bt dsk vs).2).record_total = vs.record_total := by
  cases dsk with
  | none => rfl
  | some cells => exact overflow_cells_rt bt cells vs

theorem page_ovfl_sweep_rt (bt : Btree) (page : Page) (vs : VStuff) :
    ((page_ovfl_sweep bt page vs).2).record_total = vs.record_total := by
  cases page <;> first
    | rfl
    | exact verify_overflow_cell_rt bt _ vs

theorem verify_row_leaf_key_order_rt (bt : Btree) (paddr : Nat)
    (keys : List Key) (vs : VStuff) :
    ((verify_row_leaf_key_order bt paddr keys vs).2).record_total =
      vs.record_total := by
  unfold verify_row_leaf_key_order
  split
  · split <;> rfl
  · rfl


theorem verify_row_int_key_order_rt (bt : Btree) (paddr : Nat) (ikey : Key)
    (entry : Nat) (vs : VStuff) :
    ((verify_row_int_key_order bt paddr ikey entry vs).2).record_total =
      vs.record_total := by
  unfold verify_row_int_key_order
  split <;> rfl

theorem page_key_order_rt (bt : Btree) (page : Page) (vs : VStuff) :
    ((page_key_order bt page vs).2).record_total = vs.record_total := by
  cases page <;> first
    | rfl
    | exact verify_row_leaf_key_order_rt bt _ _ vs

theorem record_update_rt (page : Page) (vs : VStuff) :
    (record_update page vs).record_total =
      vs.record_total + pageOwnRecords page := by
  cases page <;> rfl

/-- On success, the page-level steps advance `record_total` by exactly the
page's own record contribution. -/
theorem verify_page_steps_rt (bt : Btree) (addr size : Nat) (page : Page)
    (parent_recno : Nat) (vs vs4 : VStuff)
    (h : verify_page_steps bt addr size page parent_recno vs = (none, vs4)) :
    vs4.record_total = vs.record_total + pageOwnRecords page := by
  unfold verify_page_steps at h
  split at h
  · exact absurd h (by simp)
  · next vs1 heq1 =>
    split at h
    · exact absurd h (by simp)
    · split at h
      · exact absurd h (by simp)
      · next vs3 heq3 =>
        split at h
        · exact absurd h (by simp)
        · next vs4' heq4 =>
          injection h with h1 h2
          subst h2
          have e1 : vs1.record_total = vs.record_total := by
            have := verify_addfrag_rt bt.allocsize addr size vs
            rw [heq1] at this
            exact this
          have e2 : vs3.record_total =
              vs1.record_total + pageOwnRecords page := by
            have := page_key_order_rt bt page (record_update page vs1)
            rw [heq3] at this
            rw [this, record_update_rt]
          have e4 : vs4'.record_total = vs3.record_total := by
            have := page_ovfl_sweep_rt bt page vs3
            rw [heq4] at this
            exact this
          omega

/-! ### Decomposing the column-store child loop -/

theorem verify_col_children_append (bt : Btree) (xs ys : ColRefs)
    (vs : VStuff) :
    verify_col_children bt (xs.append ys) vs =
      match verify_col_children bt xs vs with
      | (some e, vsE) => (some e, vsE)
      | (none, vs1) => verify_col_children bt ys vs1 := by
  cases xs with
  | nil => rfl
  | cons crecno caddr csize child rest =>
    simp only [ColRefs.append, verify_col_children]
    by_cases hc : crecno ≠ vs.record_total + 1
    · simp only [if_pos hc]
    · simp only [if_neg hc]
      cases hres : verify_tree bt caddr csize child crecno vs with
      | mk err vs1 =>
        cases err with
        | some e => rfl
        | none => exact verify_col_children_append bt rest ys vs1

/-! ### Claim C2 — column-store record-number checks -/

/-- **C2.** During the depth-first walk, for every column-store page
(col-fix-leaf, col-var-leaf, col-internal) the verifier fails with a
message citing the page address, the actual starting record, and the
expected starting record unless `page.recno` equals the parent-supplied
expected recno; and for every child reference of a col-internal page, in
order, it fails unless `child.recno` equals the running
`record_total + 1` at the moment the child is considered. -/
theorem verify_tree_recno_checks :
    (∀ (bt : Btree) (addr size : Nat) (page : Page) (parent_recno : Nat)
        (vs vs1 : VStuff) (r : Nat),
      verify_addfrag bt.allocsize addr size vs = (none, vs1) →
      pageStartRecno page = some r →
      parent_recno ≠ r →
      verify_tree bt addr size page parent_recno vs =
        (some (VErr.recnoMismatch (pagePaddr page) r parent_recno), vs1)) ∧
    (∀ (bt : Btree) (addr size paddr recno : Nat) (children pre : ColRefs)
        (crecno caddr csize : Nat) (child : Page) (rest : ColRefs)
        (parent_recno : Nat) (vs vs4 vsp : VStuff),
      children = pre.append (ColRefs.cons crecno caddr csize child rest) →
      verify_page_steps bt addr size (Page.colInt paddr recno children)
        parent_recno vs = (none, vs4) →
      verify_col_children bt pre vs4 = (none, vsp) →
      crecno ≠ vsp.record_total + 1 →
      verify_tree bt addr size (Page.colInt paddr recno children)
        parent_recno vs =
        (some (VErr.childRecnoMismatch caddr crecno (vsp.record_total + 1)),
         vsp)) := by
  constructor
  · intro bt addr size page parent_recno vs vs1 r haf hr hne
    have hrc : recno_check page parent_recno =
        some (VErr.recnoMismatch (pagePaddr page) r parent_recno) := by
      unfold recno_check
      rw [hr]
      exact if_pos hne
    rw [verify_tree, verify_page_steps, haf, hrc]
  · intro bt addr size paddr recno children pre crecno caddr csize child rest
      parent_recno vs vs4 vsp hch hsteps hpre hcr
    rw [verify_tree, hsteps]
    dsimp only
    rw [hch, verify_col_children_append, hpre]
    dsimp only
    rw [verify_col_children, if_pos hcr]

/-- Witness for C2: a col-fix leaf whose starting record 5 differs from
the expected 1 fails the page-level check; a col-internal page whose only
child claims to start at record 7 while no records have been reviewed yet
fails the child check expecting record 1. -/
theorem verify_tree_recno_checks_witness :
    verify_tree btreeW 0 512 (Page.colFix 9 5 4) 1
        ⟨3, [], 0, [], WT_ADDR_INVALID⟩ =
      (some (VErr.recnoMismatch 9 5 1), ⟨3, [true], 0, [], WT_ADDR_INVALID⟩) ∧
    verify_tree btreeW 0 512
        (Page.colInt 0 1
          (ColRefs.cons 7 1 512 (Page.colFix 1 7 4) ColRefs.nil)) 1
        ⟨3, [], 0, [], WT_ADDR_INVALID⟩ =
      (some (VErr.childRecnoMismatch 1 7 1),
       ⟨3, [true], 0, [], WT_ADDR_INVALID⟩) :=
  ⟨verify_tree_recno_checks.1 btreeW 0 512 (Page.colFix 9 5 4) 1
      ⟨3, [], 0, [], WT_ADDR_INVALID⟩ ⟨3, [true], 0, [], WT_ADDR_INVALID⟩ 5
      rfl rfl (by decide),
   verify_tree_recno_checks.2 btreeW 0 512 0 1
      (ColRefs.cons 7 1 512 (Page.colFix 1 7 4) ColRefs.nil) ColRefs.nil
      7 1 512 (Page.colFix 1 7 4) ColRefs.nil 1
      ⟨3, [], 0, [], WT_ADDR_INVALID⟩ ⟨3, [true], 0, [], WT_ADDR_INVALID⟩
      ⟨3, [true], 0, [], WT_ADDR_INVALID⟩ rfl rfl rfl (by decide)⟩

/-! ### Claim C3 — row-internal key order -/

/-- **C3.** For every row-internal child reference with `entry_index ≥ 1`,
the key-order monitor update fails (with the "sorts before the last key
appearing on page" diagnostic) unless `cmp(fence_key, max_key) > 0`
strictly; on success it sets `max_key` to that fence key and `max_addr` to
the internal page's address; the check is never invoked for
`entry_index` 0. -/
theorem row_int_key_order_spec (bt : Btree) (paddr : Nat) (ikey : Key)
    (entry : Nat) (vs : VStuff) :
    (bt.btree_compare ikey vs.max_key ≤ 0 →
      verify_row_int_key_order bt paddr ikey entry vs =
        (some (VErr.intKeySorts entry paddr vs.max_addr), vs)) ∧
    (0 < bt.btree_compare ikey vs.max_key →
      verify_row_int_key_order bt paddr ikey entry vs =
        (none, { vs with max_key := ikey, max_addr := paddr })) ∧
    (∀ (caddr csize : Nat) (child : Page) (rest : RowRefs),
      verify_row_children bt paddr 0
          (RowRefs.cons ikey caddr csize child rest) vs =
        match verify_tree bt caddr csize child 0 vs with
        | (some e, vsE) => (some e, vsE)
        | (none, vs2) => verify_row_children bt paddr 1 rest vs2) ∧
    (∀ (e : VErr) (vsE : VStuff) (caddr csize : Nat) (child : Page)
        (rest : RowRefs),
      entry ≠ 0 →
      verify_row_int_key_order bt paddr ikey entry vs = (some e, vsE) →
      verify_row_children bt paddr entry
          (RowRefs.cons ikey caddr csize child rest) vs = (some e, vsE)) := by
  refine ⟨fun hle => ?_, fun hgt => ?_, fun caddr csize child rest => ?_,
    fun e vsE caddr csize child rest hent herr => ?_⟩
  · unfold verify_row_int_key_order
    exact if_pos hle
  · unfold verify_row_int_key_order
    exact if_neg (by omega)
  · rfl
  · rw [verify_row_children, if_pos hent, herr]

/-- A concrete comparator (bytewise lexicographic order) standing in for
the tree's configured `btree_compare` in test instances. -/
def keyCmp : Key → Key → Int
  | [], [] => 0
  | [], _ :: _ => -1
  | _ :: _, [] => 1
  | a :: as, b :: bs =>
    if a < b then -1 else if b < a then 1 else keyCmp as bs

/-- A btree handle with the lexicographic comparator, for row-store test
instances. -/
def btRowW : Btree :=
  { allocsize := 512
    file_size := 4096
    btree_compare := keyCmp
    dskOk := fun _ _ => true
    freelist := [] }

/-- Witness for C3: with current maximum key `[5]` from page 7, the fence
key `[3]` in entry 2 of the internal page at addr 4 fails; the fence key
`[9]` succeeds and becomes the maximum; entry 0 of a child list descends
into the child without any key check. -/
theorem row_int_key_order_spec_witness :
    verify_row_int_key_order btRowW 4 [3] 2 ⟨3, [], 0, [5], 7⟩ =
      (some (VErr.intKeySorts 2 4 7), ⟨3, [], 0, [5], 7⟩) ∧
    verify_row_int_key_order btRowW 4 [9] 2 ⟨3, [], 0, [5], 7⟩ =
      (none, ⟨3, [], 0, [9], 4⟩) ∧
    (verify_row_children btRowW 4 0
        (RowRefs.cons [3] 1 512 (Page.ovfl 1) RowRefs.nil)
        ⟨3, [], 0, [5], 7⟩ =
      match verify_tree btRowW 1 512 (Page.ovfl 1) 0 ⟨3, [], 0, [5], 7⟩ with
      | (some e, vsE) => (some e, vsE)
      | (none, vs2) => verify_row_children btRowW 4 1 RowRefs.nil vs2) ∧
    verify_row_children btRowW 4 2
        (RowRefs.cons [3] 1 512 (Page.ovfl 1) RowRefs.nil)
        ⟨3, [], 0, [5], 7⟩ =
      (some (VErr.intKeySorts 2 4 7), ⟨3, [], 0, [5], 7⟩) :=
  ⟨(row_int_key_order_spec btRowW 4 [3] 2 ⟨3, [], 0, [5], 7⟩).1 (by decide),
   (row_int_key_order_spec btRowW 4 [9] 2 ⟨3, [], 0, [5], 7⟩).2.1 (by decide),
   (row_int_key_order_spec btRowW 4 [3] 0 ⟨3, [], 0, [5], 7⟩).2.2.1
     1 512 (Page.ovfl 1) RowRefs.nil,
   (row_int_key_order_spec btRowW 4 [3] 2 ⟨3, [], 0, [5], 7⟩).2.2.2
     (VErr.intKeySorts 2 4 7) ⟨3, [], 0, [5], 7⟩ 1 512 (Page.ovfl 1)
     RowRefs.nil (by decide) ((row_int_key_order_spec btRowW 4 [3] 2
       ⟨3, [], 0, [5], 7⟩).1 (by decide))⟩

/-! ### Claim C4 — row-leaf key order -/

theorem getD_zero_eq_head (keys : List Key) (h : keys ≠ []) :
    keys.getD 0 [] = keys.head h := by
  cases keys with
  | nil => exact absurd rfl h
  | cons a t => rfl

theorem getD_last_eq_getLast (keys : List Key) (h : keys ≠ []) :
    keys.getD (keys.length - 1) [] = keys.getLast h := by
  have hlen : keys.length - 1 < keys.length := by
    cases keys with
    | nil => exact absurd rfl h
    | cons a t => simp
  rw [List.getD_eq_getElem _ _ hlen, List.getLast_eq_getElem]

/-- **C4.** For every row-leaf page visited: when
`max_addr == INVALID_ADDR` on entry, the monitor materializes the page's
first key, fails unless `cmp(first_key, max_key) ≥ 0`, and on failure
leaves `max_key` and `max_addr` unchanged; when
`max_addr != INVALID_ADDR` on entry, no comparison is performed; in every
non-failing case `max_key` becomes the page's last key and `max_addr` the
page's address. -/
theorem row_leaf_key_order_spec (bt : Btree) (paddr : Nat) (keys : List Key)
    (dsk : Option (List CellU)) (vs : VStuff) (h : keys ≠ []) :
    (vs.max_addr = WT_ADDR_INVALID →
      bt.btree_compare (keys.head h) vs.max_key < 0 →
      verify_row_leaf_key_order bt paddr keys vs =
        (some (VErr.leafKeySorts paddr vs.max_addr), vs)) ∧
    (vs.max_addr = WT_ADDR_INVALID →
      0 ≤ bt.btree_compare (keys.head h) vs.max_key →
      verify_row_leaf_key_order bt paddr keys vs =
        (none, { vs with max_addr := paddr, max_key := keys.getLast h })) ∧
    (vs.max_addr ≠ WT_ADDR_INVALID →
      verify_row_leaf_key_order bt paddr keys vs =
        (none, { vs with max_addr := paddr, max_key := keys.getLast h })) ∧
    page_key_order bt (Page.rowLeaf paddr keys dsk) vs =
      verify_row_leaf_key_order bt paddr keys vs := by
  refine ⟨fun hinv hlt => ?_, fun hinv hge => ?_, fun hninv => ?_, rfl⟩
  · unfold verify_row_leaf_key_order
    rw [if_pos hinv, if_pos (by rw [getD_zero_eq_head keys h]; exact hlt)]
  · unfold verify_row_leaf_key_order
    rw [if_pos hinv, if_neg (by rw [getD_zero_eq_head keys h]; omega),
      getD_last_eq_getLast keys h]
  · unfold verify_row_leaf_key_order
    rw [if_neg hninv, getD_last_eq_getLast keys h]

/-- Witness for C4: on the first leaf seen (`max_addr` invalid), first key
`[2]` sorting before the maximum `[5]` fails and leaves the monitor
unchanged, while first key `[5]` (equal compares as ≥ 0 … here `[7]` > )
succeeds; on a later leaf (`max_addr = 7`) no comparison happens and the
last key `[9]` is recorded. -/
theorem row_leaf_key_order_spec_witness :
    verify_row_leaf_key_order btRowW 4 [[2], [9]]
        ⟨3, [], 0, [5], WT_ADDR_INVALID⟩ =
      (some (VErr.leafKeySorts 4 WT_ADDR_INVALID),
       ⟨3, [], 0, [5], WT_ADDR_INVALID⟩) ∧
    verify_row_leaf_key_order btRowW 4 [[5], [9]]
        ⟨3, [], 0, [5], WT_ADDR_INVALID⟩ =
      (none, ⟨3, [], 0, [9], 4⟩) ∧
    verify_row_leaf_key_order btRowW 4 [[2], [9]] ⟨3, [], 0, [5], 7⟩ =
      (none, ⟨3, [], 0, [9], 4⟩) :=
  ⟨(row_leaf_key_order_spec btRowW 4 [[2], [9]] none
      ⟨3, [], 0, [5], WT_ADDR_INVALID⟩ (by decide)).1 rfl (by decide),
   (row_leaf_key_order_spec btRowW 4 [[5], [9]] none
      ⟨3, [], 0, [5], WT_ADDR_INVALID⟩ (by decide)).2.1 rfl (by decide),
   (row_leaf_key_order_spec btRowW 4 [[2], [9]] none
      ⟨3, [], 0, [5], 7⟩ (by decide)).2.2.1 (by decide)⟩

/-! ### Claim C6 — the record-count update -/

mutual

theorem tree_records_aux (bt : Btree) (addr size : Nat) (page : Page)
    (parent_recno : Nat) (vs vs' : VStuff)
    (h : verify_tree bt addr size page parent_recno vs = (none, vs')) :
    vs'.record_total = vs.record_total + treeRecords page := by
  rw [verify_tree] at h
  split at h
  · exact absurd h (by simp)
  · next vs4 heq =>
    have h4 := verify_page_steps_rt bt addr size page parent_recno vs vs4 heq
    cases page with
    | colFix paddr recno entries =>
      injection h with h1 h2
      subst h2
      simp only [treeRecords]
      simp only [pageOwnRecords] at h4
      omega
    | colVar paddr recno cells dsk =>
      injection h with h1 h2
      subst h2
      simp only [treeRecords]
      simp only [pageOwnRecords, col_var_recno_count_eq_sum] at h4
      omega
    | colInt paddr recno children =>
      have hc := col_records_aux bt children vs4 vs' h
      simp only [treeRecords]
      simp only [pageOwnRecords] at h4
      omega
    | rowLeaf paddr keys dsk =>
      injection h with h1 h2
      subst h2
      simp only [treeRecords]
      simp only [pageOwnRecords] at h4
      omega
    | rowInt paddr children dsk =>
      have hc := row_records_aux bt paddr 0 children vs4 vs' h
      simp only [treeRecords]
      simp only [pageOwnRecords] at h4
      omega
    | ovfl paddr =>
      injection h with h1 h2
      subst h2
      simp only [treeRecords]
      simp only [pageOwnRecords] at h4
      omega

theorem col_records_aux (bt : Btree) (children : ColRefs) (vs vs' : VStuff)
    (h : verify_col_children bt children vs = (none, vs')) :
    vs'.record_total = vs.record_total + colRefsRecords children := by
  cases children with
  | nil =>
    simp only [verify_col_children] at h
    injection h with h1 h2
    subst h2
    simp [colRefsRecords]
  | cons crecno caddr csize child rest =>
    simp only [verify_col_children] at h
    split at h
    · exact absurd h (by simp)
    · split at h
      · exact absurd h (by simp)
      · next vs1 heq =>
        have h1 := tree_records_aux bt caddr csize child crecno vs vs1 heq
        have h2 := col_records_aux bt rest vs1 vs' h
        simp only [colRefsRecords]
        omega

theorem row_records_aux (bt : Btree) (paddr entry : Nat)
    (children : RowRefs) (vs vs' : VStuff)
    (h : verify_row_children bt paddr entry children vs = (none, vs')) :
    vs'.record_total = vs.record_total + rowRefsRecords children := by
  cases children with
  | nil =>
    simp only [verify_row_children] at h
    injection h with h1 h2
    subst h2
    simp [rowRefsRecords]
  | cons ikey caddr csize child rest =>
    simp only [verify_row_children] at h
    split at h
    · exact absurd h (by simp)
    · next vs1 heq1 =>
      have hv1 : vs1.record_total = vs.record_total := by
        split at heq1
        · have := verify_row_int_key_order_rt bt paddr ikey entry vs
          rw [heq1] at this
          exact this
        · injection heq1 with ha hb
          rw [← hb]
      split at h
      · exact absurd h (by simp)
      · next vs2 heq2 =>
        have h1 := tree_records_aux bt caddr csize child 0 vs1 vs2 heq2
        have h2 := row_records_aux bt paddr (entry + 1) rest vs2 vs' h
        simp only [rowRefsRecords]
        omega

end

/-- **C6.** For every col-fix-leaf page the verifier adds `page.entries`
to the running record total; for every col-var-leaf page it adds, over the
page's on-disk slots, 1 for each null slot and the unpacked cell's `rle`
for each non-null slot; pages of other kinds leave the running record
total unchanged (their own contribution in `treeRecords` is zero, the rest
coming from their recursively visited children). -/
theorem verify_tree_record_count (bt : Btree) (addr size : Nat)
    (page : Page) (parent_recno : Nat) (vs vs' : VStuff)
    (h : verify_tree bt addr size page parent_recno vs = (none, vs')) :
    vs'.record_total = vs.record_total + treeRecords page :=
  tree_records_aux bt addr size page parent_recno vs vs' h

/-- Witness for C6: a successful walk of a col-internal page whose single
col-fix child holds 5 records advances the record total from 0 to 5 =
`treeRecords` of the subtree. -/
theorem verify_tree_record_count_witness :
    (⟨3, [true, true], 5, [], WT_ADDR_INVALID⟩ : VStuff).record_total =
      (⟨3, [], 0, [], WT_ADDR_INVALID⟩ : VStuff).record_total +
        treeRecords
          (Page.colInt 0 1
            (ColRefs.cons 1 1 512 (Page.colFix 1 1 5) ColRefs.nil)) :=
  verify_tree_record_count btreeW 0 512
    (Page.colInt 0 1 (ColRefs.cons 1 1 512 (Page.colFix 1 1 5) ColRefs.nil))
    1 ⟨3, [], 0, [], WT_ADDR_INVALID⟩
    ⟨3, [true, true], 5, [], WT_ADDR_INVALID⟩ rfl

/-! ### Claim C8 — `__verify_int` preconditions -/

/-- The precondition diagnostics of `__verify_int`. -/
inductive PreErr where
  /-- "the file contains no data pages and cannot be verified" -/
  | noDataPages
  /-- "the file size is not valid for the allocation size" -/
  | sizeNotValid
  /-- "file is too large to verify" -/
  | tooLarge
  deriving Repr, DecidableEq

/-- `WT_OFF_TO_ADDR(btree, off)`.  Modelled from the spec: the macro is
declared outside this repository; per the spec's addressing rule ("an
address `a` refers to byte `DESC_SECTOR + a·allocsize`"), byte offset
`off` maps to fragment `(off − DESC_SECTOR) / allocsize`. -/
def WT_OFF_TO_ADDR (bt : Btree) (off : Nat) : Nat :=
  (off - WT_BTREE_DESC_SECTOR) / bt.allocsize

/-- The total number of allocation fragments in the file body — the
"total fragment count" of the specification. -/
def totalFrags (bt : Btree) : Nat :=
  (bt.file_size - WT_BTREE_DESC_SECTOR) / bt.allocsize

/-- The value stored by `vs->frags = WT_OFF_TO_ADDR(btree,
btree->fh->file_size)`: the `WT_VSTUFF.frags` field is a `uint32_t`, so
the assignment truncates the fragment count modulo `2^32`. -/
def vsFrags (bt : Btree) : Nat :=
  WT_OFF_TO_ADDR bt bt.file_size % 2 ^ 32

/-- The precondition phase of `__verify_int`, run before any page is
walked: reject an empty body, a body size that is not a multiple of the
allocation size, and a (32-bit-truncated) fragment count above
`INT_MAX`. -/
def verify_precheck (bt : Btree) : Option PreErr :=
  if bt.file_size ≤ WT_BTREE_DESC_SECTOR then some PreErr.noDataPages
  else if (bt.file_size - WT_BTREE_DESC_SECTOR) % bt.allocsize ≠ 0 then
    some PreErr.sizeNotValid
  else if vsFrags bt > INT_MAX then some PreErr.tooLarge
  else none

/-- The outcome of `__verify_int`: which diagnostic set the error, or
success. -/
inductive VResult where
  | pre (e : PreErr)
  | walk (e : VErr)
  | freelist (e : VErr)
  | orphans (diags : List FragDiag)
  | ok
  deriving Repr, DecidableEq

/-- `__verify_int(session, dumpfile)`: preconditions, then the tree walk
from the root with an expected starting record of 1, then the free-list
pass, then the coverage audit.  `rootAddr`/`rootSize` are the root
`WT_REF`'s address and size. -/
def verify_int (bt : Btree) (rootAddr rootSize : Nat) (root : Page) :
    VResult :=
  match verify_precheck bt with
  | some e => VResult.pre e
  | none =>
    match verify_tree bt rootAddr rootSize root 1
        ⟨vsFrags bt, List.replicate (vsFrags bt) false, 0, [],
         WT_ADDR_INVALID⟩ with
    | (some e, _) => VResult.walk e
    | (none, vs1) =>
      match verify_freelist bt bt.freelist vs1 with
      | (some e, _) => VResult.freelist e
      | (none, vs2) =>
        match verify_checkfrag vs2 with
        | (diags, true) => VResult.orphans diags
        | (_, false) => VResult.ok

/-- A 512-byte-aligned file of `2^32` body fragments (≈2.2 TB): large
enough that its fragment count overflows the `uint32_t` `vs->frags`. -/
def btBig : Btree :=
  { allocsize := 512
    file_size := 512 + 512 * 2 ^ 32
    btree_compare := fun _ _ => 0
    dskOk := fun _ _ => true
    freelist := [] }

/-- **C8** (code-bug evidence).  The first two preconditions fire as the
claim says, and a fragment count in `(INT_MAX, 2^32)` is rejected as "too
large to verify" — but for `btBig`, whose true fragment count `2^32`
exceeds `INT_MAX`, the count truncates to 0 in the `uint32_t` `vs->frags`
field, the precondition check passes, and the verifier walks the tree and
even returns success, contradicting the claim (and the source's own
comment that the check prevents overflow). -/
theorem verify_int_precondition_bug :
    verify_precheck { btreeW with file_size := 512 } =
      some PreErr.noDataPages ∧
    verify_precheck { btreeW with file_size := 1000 } =
      some PreErr.sizeNotValid ∧
    verify_precheck { btreeW with file_size := 512 + 512 * (2 ^ 31 + 5) } =
      some PreErr.tooLarge ∧
    INT_MAX < totalFrags btBig ∧
    verify_precheck btBig = none ∧
    verify_int btBig 0 512 (Page.ovfl 0) = VResult.ok := by
  refine ⟨rfl, rfl, by decide, by decide, by decide, ?_⟩
  have hpre : verify_precheck btBig = none := by decide
  have hvs : vsFrags btBig = 0 := by decide
  have hwalk : verify_tree btBig 0 512 (Page.ovfl 0) 1
      ⟨vsFrags btBig, List.replicate (vsFrags btBig) false, 0, [],
       WT_ADDR_INVALID⟩ =
      (none, ⟨0, [true], 0, [], WT_ADDR_INVALID⟩) := by
    rw [hvs]
    rfl
  have hfl : verify_freelist btBig btBig.freelist
      ⟨0, [true], 0, [], WT_ADDR_INVALID⟩ =
      (none, ⟨0, [true], 0, [], WT_ADDR_INVALID⟩) := rfl
  have hck : verify_checkfrag ⟨0, [true], 0, [], WT_ADDR_INVALID⟩ =
      ([], false) := by
    rw [verify_checkfrag_eq]
    rfl
  rw [verify_int, hpre, hwalk]
  dsimp only
  rw [hfl]
  dsimp only
  rw [hck]

end WTVrfy
